import Mathlib

/-!
Verification of the settings-merging and argument-construction logic of
`vscode-cmake-configure` (`main.go`), against its natural-language
specification.

The Go code is shallowly embedded as follows:

* A Go `map[string]string` has no inherent iteration order.  It is embedded
  as a `List (String × String)` of entries: one such list per possible
  iteration order.  Properties quantify over all entry lists, and
  order-independence is stated as invariance under `List.Perm`.
* Go strings are byte arrays holding UTF-8 text; Lean strings are lists of
  Unicode code points.  Byte-wise lexicographic comparison of UTF-8 strings
  coincides with code-point-wise lexicographic comparison, so Go's `<` on
  strings is embedded as lexicographic comparison of `Char` lists
  (`charListLt` / `charListLe`).
* `sort.Strings` sorts ascending by that order; since the order is total,
  transitive and antisymmetric, the sorted permutation is unique, so the
  sort is embedded as `List.insertionSort`.
* The external dependency `github.com/alessio/shellescape` is embedded from
  its (single-function) implementation: `shellescape.Quote` returns `''`
  for the empty string, the string unchanged when every character is an
  ASCII letter or digit or one of `_ @ % + = : , . / -` (its safe class),
  and otherwise the string wrapped in single
  quotes with every embedded single quote replaced by `'"'"'`.  The
  repository's own tests pin this behaviour (for example
  `-DCMAKE_CXX_FLAGS_INIT='-fdiagnostics-color=always -O3'`).
* Fallible Go functions returning `(T, error)` are embedded as
  `Except String T`; environment lookups become `Option String` arguments.
-/

/-- The safe character class of the `shellescape` dependency: ASCII letters
and digits plus `_ @ % + = : , . / -` (the negation of the Go regexp
character class used by `Quote`; `\w` there is ASCII `[0-9A-Za-z_]`).  A
string made only of these characters is emitted without quoting. -/
def shellSafeChar (c : Char) : Bool :=
  c.isAlphanum || c = '_' || c = '@' || c = '%' || c = '+' || c = '=' ||
    c = ':' || c = ',' || c = '.' || c = '/' || c = '-'

namespace shellescape

/-- Character-wise body of `shellescape.Quote` for the quoted case: every
single quote is replaced by the five-character sequence `'"'"'`
(`strings.Replace(s, "'", ..., -1)` with a single-character pattern is the
same as this character-wise map). -/
def quoteBody : List Char → List Char
  | [] => []
  | c :: cs =>
    (if c = '\'' then ['\'', '"', '\'', '"', '\''] else [c]) ++ quoteBody cs

/-- List-of-characters form of `shellescape.Quote`. -/
def quoteList (s : List Char) : List Char :=
  if s = [] then ['\'', '\'']
  else if s.all shellSafeChar then s
  else '\'' :: (quoteBody s ++ ['\''])

/-- The `Quote` function of the `github.com/alessio/shellescape` dependency:
`''` for the empty string, the string itself when all characters are in the
safe class, otherwise the string single-quoted with embedded single quotes
replaced by `'"'"'`. -/
def Quote (s : String) : String :=
  ⟨quoteList s.data⟩

end shellescape

/-- Byte-wise lexicographic strict comparison of Go strings, embedded on
code-point lists (for UTF-8 data the two orders coincide). -/
def charListLt : List Char → List Char → Bool
  | [], [] => false
  | [], _ :: _ => true
  | _ :: _, [] => false
  | a :: as, b :: bs =>
    if a < b then true else if b < a then false else charListLt as bs

/-- Byte-wise lexicographic non-strict comparison of Go strings, embedded on
code-point lists.  `sort.Strings` sorts ascending with respect to this
order. -/
def charListLe : List Char → List Char → Bool
  | [], _ => true
  | _ :: _, [] => false
  | a :: as, b :: bs =>
    if a < b then true else if b < a then false else charListLe as bs

/-- Go string `≤`, as a decidable proposition. -/
abbrev strLeP (a b : String) : Prop :=
  charListLe a.data b.data = true

/-- Order on map entries given by Go string `≤` on the keys. -/
abbrev keyLeP (p q : String × String) : Prop :=
  charListLe p.1.data q.1.data = true

/-- Two variable names such that neither is a prefix of the other (hence in
particular they differ).  Under this side condition, comparing formatted
`-D<NAME>=...` tokens agrees with comparing the names themselves. -/
abbrev keysNonOverlapping (a b : String) : Prop :=
  a.data.isPrefixOf b.data = false ∧ b.data.isPrefixOf a.data = false

/-- The `VSCodeSettings` struct of `main.go`.  The
`cmake.configureSettings` JSON object becomes the unordered entry list
`CMakeConfigureSettings` (see the module comment), the
`cmake.configureArgs` array becomes the ordered list
`CMakeConfigureArguments`. -/
structure VSCodeSettings where
  CMakeConfigureSettings : List (String × String)
  CMakeConfigureArguments : List String
deriving Repr, DecidableEq

/-- The token `fmt.Sprintf("-D%s=%s", key, shellescape.Quote(value))` built
by `FormatCMakeConfigureSettings` for one map entry. -/
def formatEntry (kv : String × String) : String :=
  "-D" ++ kv.1 ++ "=" ++ shellescape.Quote kv.2

/-- `FormatCMakeConfigureSettings` of `main.go`: produce a `-DKEY=VALUE`
token for every entry of the configure-settings map (in whatever order the
map is iterated), then `sort.Strings` the result.  The sort is embedded as
`List.insertionSort` with the byte-wise string order; since that order is
total, transitive and antisymmetric, it yields the same list as Go's
(unstable) sort. -/
def VSCodeSettings.FormatCMakeConfigureSettings (settings : VSCodeSettings) : List String :=
  List.insertionSort strLeP (settings.CMakeConfigureSettings.map formatEntry)

/-- `CollectCLIArgs` of `main.go`: starting from an empty slice, append the
formatted configure-settings tokens, then the configure arguments, then the
process-supplied arguments. -/
def VSCodeSettings.CollectCLIArgs (settings : VSCodeSettings) (argv : List String) : List String :=
  [] ++ settings.FormatCMakeConfigureSettings ++ settings.CMakeConfigureArguments ++ argv

/-- Quoting state of a POSIX shell reading a word: outside quotes, inside
single quotes, or inside double quotes. -/
inductive ShMode where
  | norm
  | single
  | double
deriving Repr, DecidableEq

/-- Modelled from the spec: the conceptual POSIX-shell unescaping of one
word (the reverse transform of the round-trip law in the spec; no code in
the repository performs it).  The word is read character by character:
single quotes delimit literal spans; double quotes delimit spans in which
backslash escapes `$`, backtick, `"` and `\`; outside quotes a backslash
escapes the next character, quote characters open quoted spans, and only
characters of the safe class are accepted bare — a bare whitespace or other
shell metacharacter means the input is not a single shell-safe word, and
yields `none`, as does an unterminated quote. -/
def shUnquoteChars : ShMode → List Char → Option (List Char)
  | .norm, [] => some []
  | .norm, c :: cs =>
    if c = '\'' then shUnquoteChars .single cs
    else if c = '"' then shUnquoteChars .double cs
    else if c = '\\' then
      match cs with
      | [] => none
      | d :: ds => (shUnquoteChars .norm ds).map (d :: ·)
    else if shellSafeChar c then (shUnquoteChars .norm cs).map (c :: ·)
    else none
  | .single, [] => none
  | .single, c :: cs =>
    if c = '\'' then shUnquoteChars .norm cs
    else (shUnquoteChars .single cs).map (c :: ·)
  | .double, [] => none
  | .double, c :: cs =>
    if c = '"' then shUnquoteChars .norm cs
    else if c = '\\' then
      match cs with
      | [] => none
      | d :: ds =>
        if d = '$' ∨ d = '`' ∨ d = '"' ∨ d = '\\' then
          (shUnquoteChars .double ds).map (d :: ·)
        else (shUnquoteChars .double ds).map (fun l => '\\' :: d :: l)
    else (shUnquoteChars .double cs).map (c :: ·)

/-- Modelled from the spec: POSIX-shell unescaping of one word, on strings.
Returns `none` when the input is not a single well-quoted shell word. -/
def shUnquote (s : String) : Option String :=
  (shUnquoteChars .norm s.data).map fun l => ⟨l⟩

/-- `GetEnvOrDefault` of `main.go`.  The environment lookup
`os.LookupEnv key` is an external effect; its result is passed in as an
`Option String` (`none` when the variable is unset).  Returns the value
only when the variable exists and its value is nonempty, the fallback
otherwise. -/
def GetEnvOrDefault (value : Option String) (fallback : String) : String :=
  match value with
  | some v => if v ≠ "" then v else fallback
  | none => fallback

/-- `strings.ToLower`, embedded as character-wise ASCII lowercasing (the
same traversal as `String.toLower`, written on the character list so it
computes by reduction).  The two agree on ASCII data, and on non-ASCII data
both produce strings different from the ASCII comparands used in this
program. -/
def asciiLower (s : String) : String :=
  ⟨s.data.map Char.toLower⟩

/-- `GetEnvAsBool` of `main.go`: false when the variable is unset or its
lowercased value is contained in `["0", "false"]`, true otherwise. -/
def GetEnvAsBool (value : Option String) : Bool :=
  match value with
  | some v => !(["0", "false"].contains (asciiLower v))
  | none => false

/-- The observable outcome of one run of `main`, for the pure part: whether
the help text was printed, the input-file path that is read, and the
argument vector handed to `exec.Command("cmake", ...)`. -/
structure MainOutcome where
  helpShown : Bool
  inFile : String
  cmakeArgs : List String
deriving Repr, DecidableEq

/-- The pure skeleton of `main` together with `RunCMakeConfigure` from
`main.go`: resolve the input path from `VCC_VSCODE_SETTINGS` with default
`.vscode/settings.json`; print help when the first process argument is
`-h` or `--help` (and in the observed behaviour continue regardless);
build the `cmake` argument vector from the parsed settings and all of
`os.Args[1:]` verbatim.  File reading, process spawning and exit codes are
external effects; the parsed settings are passed in for the successful
parse path. -/
def mainModel (settingsEnv : Option String) (args : List String)
    (settings : VSCodeSettings) : MainOutcome :=
  { helpShown :=
      match args with
      | a :: _ => a = "-h" || a = "--help"
      | [] => false
    inFile := GetEnvOrDefault settingsEnv ".vscode/settings.json"
    cmakeArgs := settings.CollectCLIArgs args }

/-- JSON values, as produced by the text parser.  Numbers keep their source
lexeme (the decoder for `VSCodeSettings` never interprets a number, it can
only reject one). -/
inductive Json where
  | null
  | bool (b : Bool)
  | num (lexeme : String)
  | str (s : String)
  | arr (elems : List Json)
  | obj (fields : List (String × Json))

/-- The opening curly brace character. -/
def lbrace : Char := Char.ofNat 123

/-- The closing curly brace character. -/
def rbrace : Char := Char.ofNat 125

/-- Scanner state of the comment-normalization pass: top level, inside a
string, inside a line comment, inside a block comment. -/
inductive JCMode where
  | norm
  | instr
  | line
  | block
deriving Repr, DecidableEq

/-- Modelled from the spec: the comment-stripping JSON normalization
(external collaborator `jsonc.ToJSON` of `github.com/tidwall/jsonc`),
treated by the spec as a pure function from bytes to standard JSON bytes.
C-style `//` and `/*` `*/` comments outside strings are replaced by spaces
(newlines, tabs and carriage returns inside comments are preserved, as the
dependency does, so positions keep their line/column); string bodies pass
through unchanged, with backslash escapes respected.  Trailing-comma
removal is not modelled (the spec: trailing commas are not guaranteed
supported). -/
def jsoncGo : JCMode → List Char → List Char
  | _, [] => []
  | .norm, '"' :: cs => '"' :: jsoncGo .instr cs
  | .norm, '/' :: '/' :: cs => ' ' :: ' ' :: jsoncGo .line cs
  | .norm, '/' :: '*' :: cs => ' ' :: ' ' :: jsoncGo .block cs
  | .norm, c :: cs => c :: jsoncGo .norm cs
  | .instr, '\\' :: c :: cs => '\\' :: c :: jsoncGo .instr cs
  | .instr, '"' :: cs => '"' :: jsoncGo .norm cs
  | .instr, c :: cs => c :: jsoncGo .instr cs
  | .line, '\n' :: cs => '\n' :: jsoncGo .norm cs
  | .line, c :: cs => (if c = '\t' ∨ c = '\r' then c else ' ') :: jsoncGo .line cs
  | .block, '*' :: '/' :: cs => ' ' :: ' ' :: jsoncGo .norm cs
  | .block, c :: cs => (if c = '\n' ∨ c = '\t' ∨ c = '\r' then c else ' ') :: jsoncGo .block cs

/-- Modelled from the spec: comment normalization on strings. -/
def jsoncToJSON (s : String) : String :=
  ⟨jsoncGo .norm s.data⟩

/-- JSON insignificant whitespace. -/
def isJsonWs (c : Char) : Bool :=
  c = ' ' || c = '\t' || c = '\n' || c = '\r'

/-- Drop leading JSON whitespace. -/
def skipWs : List Char → List Char
  | [] => []
  | c :: cs => if isJsonWs c then skipWs cs else c :: cs

/-- Value of one hexadecimal digit. -/
def hexDigitVal (c : Char) : Option Nat :=
  if '0' ≤ c ∧ c ≤ '9' then some (c.toNat - '0'.toNat)
  else if 'a' ≤ c ∧ c ≤ 'f' then some (c.toNat - 'a'.toNat + 10)
  else if 'A' ≤ c ∧ c ≤ 'F' then some (c.toNat - 'A'.toNat + 10)
  else none

/-- The single-character JSON string escapes. -/
def escChar (e : Char) : Option Char :=
  if e = '"' then some '"'
  else if e = '\\' then some '\\'
  else if e = '/' then some '/'
  else if e = 'b' then some (Char.ofNat 8)
  else if e = 'f' then some (Char.ofNat 12)
  else if e = 'n' then some '\n'
  else if e = 'r' then some '\r'
  else if e = 't' then some '\t'
  else none

/-- Modelled from the spec: RFC 8259 string-body parsing as performed by the
external `encoding/json` decoder.  Expects the opening quote to be
consumed; returns the decoded content and the input after the closing
quote.  Unescaped control characters are rejected.  `\u` escapes map to the
code point directly (surrogate-pair combination of the Go decoder is not
modelled; no claim exercises it). -/
def parseJsonString : List Char → Option (List Char × List Char)
  | [] => none
  | c :: cs =>
    if c = '"' then some ([], cs)
    else if c = '\\' then
      match cs with
      | [] => none
      | 'u' :: h1 :: h2 :: h3 :: h4 :: es =>
        match hexDigitVal h1, hexDigitVal h2, hexDigitVal h3, hexDigitVal h4 with
        | some a, some b, some c4, some d =>
          (parseJsonString es).map fun r =>
            (Char.ofNat (((a * 16 + b) * 16 + c4) * 16 + d) :: r.1, r.2)
        | _, _, _, _ => none
      | e :: es =>
        match escChar e with
        | some ec => (parseJsonString es).map fun r => (ec :: r.1, r.2)
        | none => none
    else if c.toNat < 32 then none
    else (parseJsonString cs).map fun r => (c :: r.1, r.2)

/-- Split a leading run of ASCII digits from the input. -/
def takeDigits : List Char → List Char × List Char
  | [] => ([], [])
  | c :: cs =>
    if c.isDigit then
      let r := takeDigits cs
      (c :: r.1, r.2)
    else ([], c :: cs)

/-- Parse the optional fraction part of a JSON number. -/
def parseFrac : List Char → Option (List Char × List Char)
  | '.' :: cs =>
    match takeDigits cs with
    | ([], _) => none
    | (ds, rest) => some ('.' :: ds, rest)
  | cs => some ([], cs)

/-- Parse the optional exponent part of a JSON number. -/
def parseExp : List Char → Option (List Char × List Char)
  | [] => some ([], [])
  | e :: cs =>
    if e = 'e' ∨ e = 'E' then
      let p : List Char × List Char :=
        match cs with
        | '+' :: r => (['+'], r)
        | '-' :: r => (['-'], r)
        | _ => ([], cs)
      match takeDigits p.2 with
      | ([], _) => none
      | (ds, rest) => some (e :: (p.1 ++ ds), rest)
    else some ([], e :: cs)

/-- Parse a JSON number lexeme per RFC 8259 (`-?(0|[1-9][0-9]*)` with
optional fraction and exponent). -/
def parseJsonNumber (cs0 : List Char) : Option (List Char × List Char) :=
  let p : List Char × List Char :=
    match cs0 with
    | '-' :: rest => (['-'], rest)
    | _ => ([], cs0)
  match p.2 with
  | [] => none
  | c :: rest =>
    if c = '0' then
      match parseFrac rest with
      | none => none
      | some (f, r1) =>
        match parseExp r1 with
        | none => none
        | some (x, r2) => some (p.1 ++ ['0'] ++ f ++ x, r2)
    else if c.isDigit then
      let ds := takeDigits rest
      match parseFrac ds.2 with
      | none => none
      | some (f, r1) =>
        match parseExp r1 with
        | none => none
        | some (x, r2) => some (p.1 ++ (c :: ds.1) ++ f ++ x, r2)
    else none

/-- Match an expected literal character sequence. -/
def expectChars : List Char → List Char → Option (List Char)
  | [], cs => some cs
  | _ :: _, [] => none
  | e :: es, c :: cs => if c = e then expectChars es cs else none

mutual

/-- Modelled from the spec: RFC 8259 value parsing as performed by the
external `encoding/json` decoder, by recursive descent.  The `fuel`
argument only forces termination; `parseJsonText` supplies enough of it
that it never runs out on any input. -/
def parseJsonValue : Nat → List Char → Option (Json × List Char)
  | 0, _ => none
  | fuel + 1, cs =>
    match skipWs cs with
    | [] => none
    | c :: rest =>
      if c = '"' then (parseJsonString rest).map fun r => (.str ⟨r.1⟩, r.2)
      else if c = lbrace then parseJsonMembersStart fuel rest
      else if c = '[' then parseJsonElemsStart fuel rest
      else if c = 't' then (expectChars ['r', 'u', 'e'] rest).map fun r => (.bool true, r)
      else if c = 'f' then (expectChars ['a', 'l', 's', 'e'] rest).map fun r => (.bool false, r)
      else if c = 'n' then (expectChars ['u', 'l', 'l'] rest).map fun r => (.null, r)
      else if c = '-' ∨ c.isDigit then
        (parseJsonNumber (c :: rest)).map fun r => (.num ⟨r.1⟩, r.2)
      else none

/-- Parse an object body after its opening brace: either an immediate
closing brace, or a nonempty member list. -/
def parseJsonMembersStart : Nat → List Char → Option (Json × List Char)
  | 0, _ => none
  | fuel + 1, cs =>
    match skipWs cs with
    | [] => none
    | c :: rest => if c = rbrace then some (.obj [], rest) else parseJsonMembers fuel (c :: rest) []

/-- Parse the members of a nonempty object body, accumulating parsed
key/value pairs in source order. -/
def parseJsonMembers : Nat → List Char → List (String × Json) → Option (Json × List Char)
  | 0, _, _ => none
  | fuel + 1, cs, acc =>
    match skipWs cs with
    | '"' :: rest =>
      match parseJsonString rest with
      | none => none
      | some (key, r1) =>
        match skipWs r1 with
        | ':' :: r2 =>
          match parseJsonValue fuel r2 with
          | none => none
          | some (v, r3) =>
            match skipWs r3 with
            | [] => none
            | ',' :: r4 => parseJsonMembers fuel r4 (acc ++ [(⟨key⟩, v)])
            | c :: r4 =>
              if c = rbrace then some (.obj (acc ++ [(⟨key⟩, v)]), r4) else none
        | _ => none
    | _ => none

/-- Parse an array body after its opening bracket: either an immediate
closing bracket, or a nonempty element list. -/
def parseJsonElemsStart : Nat → List Char → Option (Json × List Char)
  | 0, _ => none
  | fuel + 1, cs =>
    match skipWs cs with
    | [] => none
    | c :: rest => if c = ']' then some (.arr [], rest) else parseJsonElems fuel (c :: rest) []

/-- Parse the elements of a nonempty array body, accumulating parsed values
in source order. -/
def parseJsonElems : Nat → List Char → List Json → Option (Json × List Char)
  | 0, _, _ => none
  | fuel + 1, cs, acc =>
    match parseJsonValue fuel cs with
    | none => none
    | some (v, r1) =>
      match skipWs r1 with
      | ',' :: r2 => parseJsonElems fuel r2 (acc ++ [v])
      | ']' :: r2 => some (.arr (acc ++ [v]), r2)
      | _ => none

end

/-- Modelled from the spec: parse a whole normalized document as one JSON
value followed only by whitespace.  `none` means the document is not valid
JSON.  The fuel bound decreases at least once per consumed input character
along every recursion path, and each path consumes a character within at
most four nested calls, so `4 * (length + 4)` steps never run out. -/
def parseJsonText (s : String) : Option Json :=
  match parseJsonValue (4 * (s.data.length + 4)) s.data with
  | some (v, rest) => if skipWs rest = [] then some v else none
  | none => none

/-- Modelled from the spec: `encoding/json` decoding of one JSON value into
a Go `string` destination.  Strings decode to themselves; JSON `null` is a
no-op on the zero value `""`; anything else is a type error. -/
def decodeStringElem : Json → Except String String
  | .str s => .ok s
  | .null => .ok ""
  | _ => .error "cannot unmarshal JSON value into Go value of type string"

/-- Insert-or-replace one key in an association list, preserving the
position of an existing key (Go map assignment `m[k] = v`). -/
def upsertEntry (k v : String) : List (String × String) → List (String × String)
  | [] => [(k, v)]
  | (k0, v0) :: rest =>
    if k0 = k then (k, v) :: rest else (k0, v0) :: upsertEntry k v rest

/-- Modelled from the spec: `encoding/json` decoding of a JSON object into
an existing Go `map[string]string`, assigning entries in source order (a
later duplicate key overwrites an earlier one). -/
def decodeObjIntoMap (m : List (String × String)) :
    List (String × Json) → Except String (List (String × String))
  | [] => .ok m
  | (k, v) :: rest =>
    match decodeStringElem v with
    | .error e => .error e
    | .ok s => decodeObjIntoMap (upsertEntry k s m) rest

/-- Modelled from the spec: `encoding/json` decoding of a JSON array into a
Go `[]string`. -/
def decodeStringArray : List Json → Except String (List String)
  | [] => .ok []
  | v :: rest =>
    match decodeStringElem v with
    | .error e => .error e
    | .ok s =>
      match decodeStringArray rest with
      | .error e => .error e
      | .ok l => .ok (s :: l)

/-- Modelled from the spec: `encoding/json` matching of an object key
against a struct field tag — an exact match, or a case-insensitive one
(embedded as ASCII lowercasing; the Unicode folding of the Go matcher
agrees on the ASCII tags involved). -/
def fieldKeyMatches (tag key : String) : Bool :=
  key = tag || asciiLower key = asciiLower tag

/-- Modelled from the spec: `encoding/json` decoding of one member of the
top-level JSON object into the two tagged fields of `VSCodeSettings`.  A
`null` member is a no-op; an object member for the settings field merges
into the map built so far; an array member for the arguments field replaces
the slice; a member matching neither tag is ignored whatever its shape; a
wrongly shaped member for either tag is an error. -/
def decodeOneField (s : VSCodeSettings) (kv : String × Json) :
    Except String VSCodeSettings :=
  if fieldKeyMatches "cmake.configureSettings" kv.1 then
    match kv.2 with
    | .null => .ok s
    | .obj fields =>
      match decodeObjIntoMap s.CMakeConfigureSettings fields with
      | .error e => .error e
      | .ok m => .ok { s with CMakeConfigureSettings := m }
    | _ => .error "cannot unmarshal JSON value into Go value of type map of string"
  else if fieldKeyMatches "cmake.configureArgs" kv.1 then
    match kv.2 with
    | .null => .ok s
    | .arr elems =>
      match decodeStringArray elems with
      | .error e => .error e
      | .ok a => .ok { s with CMakeConfigureArguments := a }
    | _ => .error "cannot unmarshal JSON value into Go value of type slice of string"
  else .ok s

/-- Modelled from the spec: `encoding/json` decoding of the members of the
top-level JSON object, processed in source order, stopping at the first
wrongly shaped member (the Go decoder records the earliest such error;
only whether an error is reported is observable here). -/
def decodeFields (s : VSCodeSettings) :
    List (String × Json) → Except String VSCodeSettings
  | [] => .ok s
  | kv :: rest =>
    match decodeOneField s kv with
    | .error e => .error e
    | .ok s1 => decodeFields s1 rest

/-- Modelled from the spec: `encoding/json` unmarshalling of a document
value into a `VSCodeSettings` destination.  A top-level object decodes
field by field from the zero value; a top-level `null` is a no-op yielding
the zero value; any other top-level value is a type error. -/
def decodeVSCodeSettings : Json → Except String VSCodeSettings
  | .null => .ok ⟨[], []⟩
  | .obj fields => decodeFields ⟨[], []⟩ fields
  | _ => .error "cannot unmarshal JSON value into Go value of type VSCodeSettings"

/-- `ParseVSCodeSettings` of `main.go`: normalize the comment-tolerant
document and decode it; the two external steps (`jsonc.ToJSON` and
`json.Unmarshal`) are the models above.  On any decode error the zero
`VSCodeSettings` together with the error is returned in Go; the embedding
keeps only the error. -/
def ParseVSCodeSettings (input : String) : Except String VSCodeSettings :=
  match parseJsonText (jsoncToJSON input) with
  | none => .error "invalid JSON"
  | some doc => decodeVSCodeSettings doc

/-- A JSON value that a Go `string` destination accepts (spec side:
"object of string values" and "array of strings", with `null` accepted as
the zero value by the decoder). -/
def jsonIsStringOrNull : Json → Bool
  | .str _ => true
  | .null => true
  | _ => false

/-- Spec-side shape predicate: a value for the `cmake.configureSettings`
field that the spec calls wrongly shaped and the decoder rejects — present,
not `null`, and not an object whose values are all strings (or nulls). -/
def badSettingsFieldValue : Json → Bool
  | .obj fields => !(fields.all fun kv => jsonIsStringOrNull kv.2)
  | .null => false
  | _ => true

/-- Spec-side shape predicate: a value for the `cmake.configureArgs` field
that the spec calls wrongly shaped and the decoder rejects — present, not
`null`, and not an array whose elements are all strings (or nulls). -/
def badArgsFieldValue : Json → Bool
  | .arr elems => !(elems.all jsonIsStringOrNull)
  | .null => false
  | _ => true

/-- Spec-side predicate: some present field of the document has the wrong
shape. -/
def docHasBadField : Json → Bool
  | .obj fields =>
    fields.any fun kv =>
      (fieldKeyMatches "cmake.configureSettings" kv.1 && badSettingsFieldValue kv.2) ||
      (fieldKeyMatches "cmake.configureArgs" kv.1 && badArgsFieldValue kv.2)
  | _ => false

/-- Spec-side predicate: the top-level value of the document is neither an
object nor `null`. -/
def topLevelNotObject : Json → Bool
  | .obj _ => false
  | .null => false
  | _ => true

/-- Whether a decode result is an error. -/
def exceptIsError {α : Type} : Except String α → Bool
  | .error _ => true
  | .ok _ => false

/-- The settings document of the end-to-end scenario of the spec (claim
C5), with braces escaped for readability of the embedding only — the
string is the exact document. -/
def exampleSettingsDoc : String :=
  "\x7b\"cmake.configureArgs\":[\"-GNinja\"],\"cmake.configureSettings\":\x7b\"CMAKE_CXX_COMPILER\":\"clang++\",\"CMAKE_CXX_FLAGS_INIT\":\"-fdiagnostics-color=always -O3\",\"CMAKE_CXX_STANDARD\":\"17\",\"CMAKE_CXX_STANDARD_REQUIRED\":\"ON\"\x7d\x7d"

/-! ### Properties of the byte-wise string order -/

theorem charListLe_total : ∀ a b : List Char, charListLe a b = true ∨ charListLe b a = true
  | [], _ => Or.inl rfl
  | _ :: _, [] => Or.inr rfl
  | a :: as, b :: bs => by
    rcases lt_trichotomy a b with h | h | h
    · left; simp [charListLe, h]
    · subst h
      rcases charListLe_total as bs with ih | ih
      · left; simp [charListLe, lt_irrefl, ih]
      · right; simp [charListLe, lt_irrefl, ih]
    · right; simp [charListLe, h]

theorem charListLe_trans :
    ∀ a b c : List Char, charListLe a b = true → charListLe b c = true → charListLe a c = true
  | [], _, _, _, _ => rfl
  | a :: as, [], _, h1, _ => by simp [charListLe] at h1
  | a :: as, b :: bs, [], _, h2 => by simp [charListLe] at h2
  | a :: as, b :: bs, c :: cs, h1, h2 => by
    rcases lt_trichotomy a b with hab | hab | hab
    · rcases lt_trichotomy b c with hbc | hbc | hbc
      · simp [charListLe, lt_trans hab hbc]
      · subst hbc; simp [charListLe, hab]
      · simp [charListLe, hbc, lt_asymm hbc] at h2
    · subst hab
      rcases lt_trichotomy a c with hac | hac | hac
      · simp [charListLe, hac]
      · subst hac
        simp only [charListLe, lt_irrefl, if_false] at h1 h2 ⊢
        exact charListLe_trans as bs cs h1 h2
      · simp [charListLe, hac, lt_asymm hac] at h2
    · simp [charListLe, hab, lt_asymm hab] at h1

theorem charListLe_antisymm :
    ∀ a b : List Char, charListLe a b = true → charListLe b a = true → a = b
  | [], [], _, _ => rfl
  | [], _ :: _, _, h2 => by simp [charListLe] at h2
  | _ :: _, [], h1, _ => by simp [charListLe] at h1
  | a :: as, b :: bs, h1, h2 => by
    rcases lt_trichotomy a b with h | h | h
    · simp [charListLe, h, lt_asymm h] at h2
    · subst h
      simp only [charListLe, lt_irrefl, if_false] at h1 h2
      rw [charListLe_antisymm as bs h1 h2]
    · simp [charListLe, h, lt_asymm h] at h1

theorem charListLt_le : ∀ a b : List Char, charListLt a b = true → charListLe a b = true
  | [], _, _ => rfl
  | _ :: _, [], h => by simp [charListLt] at h
  | a :: as, b :: bs, h => by
    rcases lt_trichotomy a b with hab | hab | hab
    · simp [charListLe, hab]
    · subst hab
      simp only [charListLt, lt_irrefl, if_false] at h
      simp only [charListLe, lt_irrefl, if_false]
      exact charListLt_le as bs h
    · simp [charListLt, hab, lt_asymm hab] at h

theorem charListLt_of_le_of_ne :
    ∀ a b : List Char, charListLe a b = true → a ≠ b → charListLt a b = true
  | [], [], _, hne => absurd rfl hne
  | [], _ :: _, _, _ => rfl
  | _ :: _, [], h1, _ => by simp [charListLe] at h1
  | a :: as, b :: bs, h1, hne => by
    rcases lt_trichotomy a b with hab | hab | hab
    · simp [charListLt, hab]
    · subst hab
      simp only [charListLe, lt_irrefl, if_false] at h1
      simp only [charListLt, lt_irrefl, if_false]
      refine charListLt_of_le_of_ne as bs h1 fun h => hne ?_
      rw [h]
    · simp [charListLe, hab, lt_asymm hab] at h1

theorem isPrefixOf_self : ∀ l : List Char, l.isPrefixOf l = true
  | [] => rfl
  | c :: cs => by simp [List.isPrefixOf, isPrefixOf_self cs]

theorem charListLt_append :
    ∀ a b x y : List Char, charListLt a b = true → a.isPrefixOf b = false →
      charListLt (a ++ x) (b ++ y) = true
  | [], b, _, _, _, hp => by simp [List.isPrefixOf] at hp
  | _ :: _, [], _, _, hlt, _ => by simp [charListLt] at hlt
  | a :: as, b :: bs, x, y, hlt, hp => by
    rcases lt_trichotomy a b with hab | hab | hab
    · simp [charListLt, hab]
    · subst hab
      simp only [charListLt, lt_irrefl, if_false] at hlt
      simp only [List.isPrefixOf, beq_self_eq_true, Bool.true_and] at hp
      simp only [List.cons_append, charListLt, lt_irrefl, if_false]
      exact charListLt_append as bs x y hlt hp
    · simp [charListLt, hab, lt_asymm hab] at hlt

theorem charListLt_irrefl : ∀ a : List Char, charListLt a a = false
  | [] => rfl
  | _ :: as => by simp [charListLt, lt_irrefl, charListLt_irrefl as]

theorem strLe_antisymm (a b : String) (h1 : strLeP a b) (h2 : strLeP b a) : a = b :=
  String.ext (charListLe_antisymm a.data b.data h1 h2)

/-! ### Round trip of `shellescape.Quote` through shell unescaping -/

theorem shellSafeChar_not_quote {c : Char} (h : shellSafeChar c = true) : c ≠ '\'' := by
  intro he; subst he; exact absurd h (by decide)

theorem shellSafeChar_not_dquote {c : Char} (h : shellSafeChar c = true) : c ≠ '"' := by
  intro he; subst he; exact absurd h (by decide)

theorem shellSafeChar_not_backslash {c : Char} (h : shellSafeChar c = true) : c ≠ '\\' := by
  intro he; subst he; exact absurd h (by decide)

theorem shUnquote_step_norm_quote (cs : List Char) :
    shUnquoteChars .norm ('\'' :: cs) = shUnquoteChars .single cs := by
  rw [shUnquoteChars.eq_def]
  dsimp only
  rw [if_pos rfl]

theorem shUnquote_step_single_quote (cs : List Char) :
    shUnquoteChars .single ('\'' :: cs) = shUnquoteChars .norm cs := by
  rw [shUnquoteChars.eq_def]
  dsimp only
  rw [if_pos rfl]

theorem shUnquote_step_norm_dquote (cs : List Char) :
    shUnquoteChars .norm ('"' :: cs) = shUnquoteChars .double cs := by
  rw [shUnquoteChars.eq_def]
  dsimp only
  rw [if_neg (by decide), if_pos rfl]

theorem shUnquote_step_double_quote (cs : List Char) :
    shUnquoteChars .double ('\'' :: cs) =
      (shUnquoteChars .double cs).map ('\'' :: ·) := by
  rw [shUnquoteChars.eq_def]
  dsimp only
  rw [if_neg (by decide), if_neg (by decide)]

theorem shUnquote_step_double_dquote (cs : List Char) :
    shUnquoteChars .double ('"' :: cs) = shUnquoteChars .norm cs := by
  rw [shUnquoteChars.eq_def]
  dsimp only
  rw [if_pos rfl]

theorem shUnquote_step_single_other {c : Char} (h : c ≠ '\'') (cs : List Char) :
    shUnquoteChars .single (c :: cs) = (shUnquoteChars .single cs).map (c :: ·) := by
  rw [shUnquoteChars.eq_def]
  dsimp only
  rw [if_neg h]

theorem shUnquote_step_norm_safe {c : Char} (h : shellSafeChar c = true) (cs : List Char) :
    shUnquoteChars .norm (c :: cs) = (shUnquoteChars .norm cs).map (c :: ·) := by
  rw [shUnquoteChars.eq_def]
  dsimp only
  rw [if_neg (shellSafeChar_not_quote h), if_neg (shellSafeChar_not_dquote h),
    if_neg (shellSafeChar_not_backslash h), if_pos h]

theorem shUnquoteChars_norm_safe :
    ∀ s : List Char, s.all shellSafeChar = true → shUnquoteChars .norm s = some s
  | [], _ => rfl
  | c :: cs, h => by
    rw [List.all_cons, Bool.and_eq_true] at h
    rw [shUnquote_step_norm_safe h.1, shUnquoteChars_norm_safe cs h.2, Option.map_some']

theorem shUnquoteChars_single_quoteBody :
    ∀ s tail : List Char,
      shUnquoteChars .single (shellescape.quoteBody s ++ tail) =
        (shUnquoteChars .single tail).map (s ++ ·)
  | [], tail => by
    cases h : shUnquoteChars .single tail <;>
      simp [shellescape.quoteBody, h]
  | c :: cs, tail => by
    by_cases hc : c = '\''
    · subst hc
      simp only [shellescape.quoteBody, eq_self_iff_true, if_true, List.cons_append,
        List.append_assoc, List.nil_append]
      rw [shUnquote_step_single_quote, shUnquote_step_norm_dquote,
        shUnquote_step_double_quote, shUnquote_step_double_dquote,
        shUnquote_step_norm_quote, shUnquoteChars_single_quoteBody cs tail]
      cases h : shUnquoteChars .single tail <;> simp
    · simp only [shellescape.quoteBody, if_neg hc, List.cons_append, List.nil_append]
      rw [shUnquote_step_single_other hc, shUnquoteChars_single_quoteBody cs tail]
      cases h : shUnquoteChars .single tail <;> simp

theorem shUnquote_norm_nil : shUnquoteChars .norm [] = some [] := by
  rw [shUnquoteChars.eq_def]

theorem shUnquote_quoteList (s : List Char) :
    shUnquoteChars .norm (shellescape.quoteList s) = some s := by
  unfold shellescape.quoteList
  by_cases h0 : s = []
  · subst h0
    rw [if_pos rfl]
    rw [show (['\'', '\''] : List Char) = '\'' :: '\'' :: [] from rfl]
    rw [shUnquote_step_norm_quote, shUnquote_step_single_quote, shUnquote_norm_nil]
  · rw [if_neg h0]
    by_cases hs : s.all shellSafeChar = true
    · rw [if_pos hs]
      exact shUnquoteChars_norm_safe s hs
    · rw [if_neg hs, shUnquote_step_norm_quote, shUnquoteChars_single_quoteBody s ['\''],
        shUnquote_step_single_quote, shUnquote_norm_nil]
      simp

theorem shUnquote_Quote (v : String) : shUnquote (shellescape.Quote v) = some v := by
  unfold shUnquote shellescape.Quote
  rw [show (String.mk (shellescape.quoteList v.data)).data = shellescape.quoteList v.data
    from rfl]
  rw [shUnquote_quoteList]
  rfl

theorem charListLt_cons (c : Char) (a b : List Char) :
    charListLt (c :: a) (c :: b) = charListLt a b := by
  simp [charListLt, lt_self_iff_false]

theorem formatEntry_data (kv : String × String) :
    (formatEntry kv).data =
      '-' :: 'D' :: (kv.1.data ++ '=' :: (shellescape.Quote kv.2).data) := by
  simp only [formatEntry, String.data_append, List.append_assoc]
  rfl

theorem formatEntry_lt (p q : String × String)
    (hlt : charListLt p.1.data q.1.data = true)
    (hp : p.1.data.isPrefixOf q.1.data = false) :
    charListLt (formatEntry p).data (formatEntry q).data = true := by
  rw [formatEntry_data, formatEntry_data, charListLt_cons, charListLt_cons]
  exact charListLt_append _ _ _ _ hlt hp

theorem formatEntry_le_of_key (p q : String × String) (hle : keyLeP p q)
    (hno : keysNonOverlapping p.1 q.1) : strLeP (formatEntry p) (formatEntry q) := by
  have hne : p.1.data ≠ q.1.data := by
    intro h
    have := hno.1
    rw [h, isPrefixOf_self] at this
    simp at this
  exact charListLt_le _ _
    (formatEntry_lt p q (charListLt_of_le_of_ne _ _ hle hne) hno.1)

/-! ### Claim theorems: composition, escaping, environment, main -/

/-- C3: for all settings and process-argument lists, `CollectCLIArgs`
returns exactly the concatenation of the formatted configure-settings
tokens, the configure arguments in source order, and the process arguments
in the order received; empty inputs at any position contribute nothing. -/
theorem collectCLIArgs_concat (settings : VSCodeSettings) (argv : List String) :
    settings.CollectCLIArgs argv =
      settings.FormatCMakeConfigureSettings ++
        settings.CMakeConfigureArguments ++ argv := by
  simp [VSCodeSettings.CollectCLIArgs]

/-- C4 counterexample: the empty value has no special characters, yet its
token is emitted with added quoting — `-DCMAKE_X=''` instead of
`-DCMAKE_X=` — so the no-added-quoting clause of the claim fails for the
empty string. -/
theorem formatEntry_empty_value_quoted :
    "".data.all shellSafeChar = true ∧
    formatEntry ("CMAKE_X", "") = "-DCMAKE_X=''" ∧
    formatEntry ("CMAKE_X", "") ≠ "-DCMAKE_X=" := by
  refine ⟨rfl, by decide, by decide⟩

/-- C4 (amended): every entry is emitted as a token of the exact shape
`-D<NAME>=<ESCAPED_VALUE>`; POSIX-shell-unescaping the escaped value
reproduces the original value byte-for-byte, for every value; and every
nonempty value with no special characters is emitted with no added
quoting.  (The original claim fails only for the empty value, which is
quoted as `''`.) -/
theorem formatEntry_shape_roundtrip (kv : String × String) :
    formatEntry kv = "-D" ++ kv.1 ++ "=" ++ shellescape.Quote kv.2 ∧
    shUnquote (shellescape.Quote kv.2) = some kv.2 ∧
    (kv.2 ≠ "" → kv.2.data.all shellSafeChar = true → shellescape.Quote kv.2 = kv.2) := by
  refine ⟨rfl, shUnquote_Quote kv.2, fun hne hsafe => ?_⟩
  unfold shellescape.Quote shellescape.quoteList
  rw [if_neg fun h => hne (String.ext (by simpa using h)), if_pos hsafe]

/-- C4 witness: the amended no-added-quoting clause instantiated at the
nonempty safe value `17` of the repository's own test data. -/
theorem formatEntry_shape_roundtrip_witness : shellescape.Quote "17" = "17" :=
  (formatEntry_shape_roundtrip ("CMAKE_CXX_STANDARD", "17")).2.2 (by decide) (by decide)

/-- C10: the escaping transform is applied only to the value, never to the
variable name — the emitted token is `-D` followed by the key verbatim,
then `=`, then the escaped value — and a key containing a space yields a
token that is not a single shell-safe word (unescaping `-DA B=x` fails). -/
theorem formatEntry_key_unescaped (k v : String) :
    (formatEntry (k, v)).data = '-' :: 'D' :: (k.data ++ '=' :: (shellescape.Quote v).data) ∧
    shUnquote (formatEntry ("A B", "x")) = none :=
  ⟨formatEntry_data (k, v), by decide⟩

/-- C7: `GetEnvAsBool` is false for an unset variable and for every value
whose ASCII lowercasing is `0` or `false` (so for `0`, `false`, `FALSE`,
`FaLsE`), and true for every other present value, including the empty
string, `1`, `true`, and arbitrary non-matching text. -/
theorem getEnvAsBool_spec :
    GetEnvAsBool none = false ∧
    (∀ v : String, asciiLower v = "0" ∨ asciiLower v = "false" →
      GetEnvAsBool (some v) = false) ∧
    (∀ v : String, asciiLower v ≠ "0" → asciiLower v ≠ "false" →
      GetEnvAsBool (some v) = true) ∧
    GetEnvAsBool (some "") = true ∧
    GetEnvAsBool (some "0") = false ∧
    GetEnvAsBool (some "false") = false ∧
    GetEnvAsBool (some "FALSE") = false ∧
    GetEnvAsBool (some "FaLsE") = false ∧
    GetEnvAsBool (some "1") = true ∧
    GetEnvAsBool (some "true") = true ∧
    GetEnvAsBool (some "Q-Plah") = true := by
  refine ⟨rfl, ?_, ?_, by decide, by decide, by decide, by decide, by decide,
    by decide, by decide, by decide⟩
  · intro v h
    simp only [GetEnvAsBool]
    rcases h with h | h <;> rw [h] <;> decide
  · intro v h0 hf
    simp only [GetEnvAsBool]
    simp [List.contains, h0, hf]

/-- C7 witness: the general falsy clause instantiated at `FaLsE`. -/
theorem getEnvAsBool_spec_witness : GetEnvAsBool (some "FaLsE") = false :=
  getEnvAsBool_spec.2.1 "FaLsE" (Or.inr (by decide))

/-- C9: `GetEnvOrDefault` returns the fallback not only when the variable
is unset but also when it is set to the empty string, and the value itself
only when it is nonempty; consequently `main` with `VCC_VSCODE_SETTINGS`
set to the empty string silently reads the default path
`.vscode/settings.json`. -/
theorem getEnvOrDefault_empty_is_default (fallback : String) :
    GetEnvOrDefault none fallback = fallback ∧
    GetEnvOrDefault (some "") fallback = fallback ∧
    (∀ v : String, v ≠ "" → GetEnvOrDefault (some v) fallback = v) ∧
    (∀ args : List String, ∀ settings : VSCodeSettings,
      (mainModel (some "") args settings).inFile = ".vscode/settings.json") := by
  refine ⟨rfl, by simp [GetEnvOrDefault], fun v hv => by simp [GetEnvOrDefault, hv],
    fun args settings => by simp [mainModel, GetEnvOrDefault]⟩

/-- C9 witness: the nonempty clause instantiated at a set, nonempty
variable. -/
theorem getEnvOrDefault_empty_is_default_witness :
    GetEnvOrDefault (some "path/to/mysettings.json") ".vscode/settings.json" =
      "path/to/mysettings.json" :=
  (getEnvOrDefault_empty_is_default ".vscode/settings.json").2.2.1
    "path/to/mysettings.json" (by decide)

/-- C8: every invocation forwards all arguments after the program name
verbatim as the process arguments of the composer (the help flag included),
and the help text is shown exactly when the leading argument is `-h` or
`--help`. -/
theorem mainModel_forwards_args (settingsEnv : Option String) (args : List String)
    (settings : VSCodeSettings) :
    (mainModel settingsEnv args settings).cmakeArgs = settings.CollectCLIArgs args ∧
    (mainModel settingsEnv args settings).cmakeArgs =
      settings.FormatCMakeConfigureSettings ++ settings.CMakeConfigureArguments ++ args ∧
    ((mainModel settingsEnv args settings).helpShown = true ↔
      ∃ rest, args = "-h" :: rest ∨ args = "--help" :: rest) := by
  refine ⟨rfl, by simp [mainModel, VSCodeSettings.CollectCLIArgs], ?_⟩
  cases args with
  | nil => simp [mainModel]
  | cons a rest =>
    simp only [mainModel, Bool.or_eq_true, decide_eq_true_eq]
    constructor
    · rintro (h | h)
      · exact ⟨rest, Or.inl (by rw [h])⟩
      · exact ⟨rest, Or.inr (by rw [h])⟩
    · rintro ⟨r, h | h⟩ <;> injection h with h1 h2 <;> subst h1 <;> simp

/-! ### Claim theorems: determinism and ordering of the formatter -/

/-- C2: the formatter returns exactly the same output sequence for any two
logically equal mappings — entry lists that are permutations of one
another, whatever the surrounding settings — so its result depends only on
the set of entries and not on the map's iteration order. -/
theorem formatCMakeConfigureSettings_deterministic
    (e1 e2 : List (String × String)) (a1 a2 : List String) (h : e1.Perm e2) :
    (VSCodeSettings.mk e1 a1).FormatCMakeConfigureSettings =
      (VSCodeSettings.mk e2 a2).FormatCMakeConfigureSettings := by
  haveI : IsTotal String strLeP := ⟨fun a b => charListLe_total a.data b.data⟩
  haveI : IsTrans String strLeP := ⟨fun a b c => charListLe_trans a.data b.data c.data⟩
  haveI : IsAntisymm String strLeP := ⟨strLe_antisymm⟩
  unfold VSCodeSettings.FormatCMakeConfigureSettings
  apply List.eq_of_perm_of_sorted (r := strLeP)
  · exact (List.perm_insertionSort _ _).trans
      ((h.map formatEntry).trans (List.perm_insertionSort _ _).symm)
  · exact List.sorted_insertionSort _ _
  · exact List.sorted_insertionSort _ _

/-- C2 witness: two iteration orders of the same two-entry map format to
the same sequence. -/
theorem formatCMakeConfigureSettings_deterministic_witness :
    (VSCodeSettings.mk [("B", "1"), ("A", "2")] []).FormatCMakeConfigureSettings =
      (VSCodeSettings.mk [("A", "2"), ("B", "1")] []).FormatCMakeConfigureSettings :=
  formatCMakeConfigureSettings_deterministic [("B", "1"), ("A", "2")]
    [("A", "2"), ("B", "1")] [] [] (by decide)

/-- C1 counterexample: for the map with keys `A` and `A1`, the formatter
output is sorted by token (`-DA1=y` before `-DA=x`, since `1` is below `=`
byte-wise) but sorting the entries by variable name gives the opposite
order, so token order and name order do not coincide. -/
theorem format_token_order_ne_key_order :
    (VSCodeSettings.mk [("A", "x"), ("A1", "y")] []).FormatCMakeConfigureSettings =
      ["-DA1=y", "-DA=x"] ∧
    (List.insertionSort keyLeP [("A", "x"), ("A1", "y")]).map formatEntry =
      ["-DA=x", "-DA1=y"] ∧
    (VSCodeSettings.mk [("A", "x"), ("A1", "y")] []).FormatCMakeConfigureSettings ≠
      (List.insertionSort keyLeP [("A", "x"), ("A1", "y")]).map formatEntry := by
  refine ⟨by decide, by decide, by decide⟩

/-- C1 (amended): for every mapping, the formatter output is sorted in
lexicographic byte-wise order of the formatted tokens; and this order
coincides with sorting the entries by variable name whenever no variable
name is a proper prefix of another (the counterexample with keys `A` and
`A1` shows the coincidence fails without that side condition, because the
`=` byte that follows a shorter name need not compare like the bytes of a
longer name). -/
theorem formatCMakeConfigureSettings_sorted (entries : List (String × String))
    (args : List String) :
    List.Sorted strLeP (VSCodeSettings.mk entries args).FormatCMakeConfigureSettings ∧
    ((entries.map Prod.fst).Pairwise keysNonOverlapping →
      (VSCodeSettings.mk entries args).FormatCMakeConfigureSettings =
        (List.insertionSort keyLeP entries).map formatEntry) := by
  haveI : IsTotal String strLeP := ⟨fun a b => charListLe_total a.data b.data⟩
  haveI : IsTrans String strLeP := ⟨fun a b c => charListLe_trans a.data b.data c.data⟩
  haveI : IsAntisymm String strLeP := ⟨strLe_antisymm⟩
  haveI : IsTotal (String × String) keyLeP := ⟨fun p q => charListLe_total p.1.data q.1.data⟩
  haveI : IsTrans (String × String) keyLeP :=
    ⟨fun p q r => charListLe_trans p.1.data q.1.data r.1.data⟩
  constructor
  · exact List.sorted_insertionSort _ _
  · intro hk
    unfold VSCodeSettings.FormatCMakeConfigureSettings
    apply List.eq_of_perm_of_sorted (r := strLeP)
    · exact (List.perm_insertionSort _ _).trans
        ((List.perm_insertionSort keyLeP entries).map formatEntry).symm
    · exact List.sorted_insertionSort _ _
    · have hsort : List.Sorted keyLeP (List.insertionSort keyLeP entries) :=
        List.sorted_insertionSort _ _
      have hperm : ((List.insertionSort keyLeP entries).map Prod.fst).Perm
          (entries.map Prod.fst) :=
        (List.perm_insertionSort keyLeP entries).map Prod.fst
      have hpair : ((List.insertionSort keyLeP entries).map Prod.fst).Pairwise
          keysNonOverlapping :=
        (hperm.pairwise_iff fun h => ⟨h.2, h.1⟩).mpr hk
      rw [List.pairwise_map] at hpair
      exact (hsort.and hpair).map formatEntry
        fun a b h => formatEntry_le_of_key a b h.1 h.2

/-- C1 witness: the name-order coincidence instantiated at a two-entry map
whose keys do not overlap. -/
theorem formatCMakeConfigureSettings_sorted_witness :
    (VSCodeSettings.mk [("B", "1"), ("A", "2")] []).FormatCMakeConfigureSettings =
      (List.insertionSort keyLeP [("B", "1"), ("A", "2")]).map formatEntry :=
  (formatCMakeConfigureSettings_sorted [("B", "1"), ("A", "2")] []).2 (by decide)

/-! ### Error characterization of the settings decoder -/

theorem decodeStringElem_isError (v : Json) :
    exceptIsError (decodeStringElem v) = !jsonIsStringOrNull v := by
  cases v <;> rfl

theorem decodeObjIntoMap_isError (fields : List (String × Json)) :
    ∀ m, exceptIsError (decodeObjIntoMap m fields) =
      !(fields.all fun kv => jsonIsStringOrNull kv.2) := by
  induction fields with
  | nil => intro m; rfl
  | cons kv rest ih =>
    obtain ⟨k, v⟩ := kv
    intro m
    cases v with
    | str s =>
      simp only [decodeObjIntoMap, decodeStringElem]
      rw [ih]
      simp [jsonIsStringOrNull]
    | null =>
      simp only [decodeObjIntoMap, decodeStringElem]
      rw [ih]
      simp [jsonIsStringOrNull]
    | bool b => simp [decodeObjIntoMap, decodeStringElem, exceptIsError, jsonIsStringOrNull]
    | num x => simp [decodeObjIntoMap, decodeStringElem, exceptIsError, jsonIsStringOrNull]
    | arr es => simp [decodeObjIntoMap, decodeStringElem, exceptIsError, jsonIsStringOrNull]
    | obj fs => simp [decodeObjIntoMap, decodeStringElem, exceptIsError, jsonIsStringOrNull]

theorem decodeStringArray_isError (elems : List Json) :
    exceptIsError (decodeStringArray elems) = !(elems.all jsonIsStringOrNull) := by
  induction elems with
  | nil => rfl
  | cons v rest ih =>
    cases v with
    | str s =>
      simp only [decodeStringArray, decodeStringElem]
      cases h : decodeStringArray rest with
      | error e =>
        rw [h] at ih
        simp only [exceptIsError] at ih ⊢
        simp [jsonIsStringOrNull, ← ih]
      | ok l =>
        rw [h] at ih
        simp only [exceptIsError] at ih ⊢
        simp [jsonIsStringOrNull, ← ih]
    | null =>
      simp only [decodeStringArray, decodeStringElem]
      cases h : decodeStringArray rest with
      | error e =>
        rw [h] at ih
        simp only [exceptIsError] at ih ⊢
        simp [jsonIsStringOrNull, ← ih]
      | ok l =>
        rw [h] at ih
        simp only [exceptIsError] at ih ⊢
        simp [jsonIsStringOrNull, ← ih]
    | bool b => simp [decodeStringArray, decodeStringElem, exceptIsError, jsonIsStringOrNull]
    | num x => simp [decodeStringArray, decodeStringElem, exceptIsError, jsonIsStringOrNull]
    | arr es => simp [decodeStringArray, decodeStringElem, exceptIsError, jsonIsStringOrNull]
    | obj fs => simp [decodeStringArray, decodeStringElem, exceptIsError, jsonIsStringOrNull]

theorem fieldKeyMatches_not_both (k : String)
    (h1 : fieldKeyMatches "cmake.configureSettings" k = true)
    (h2 : fieldKeyMatches "cmake.configureArgs" k = true) : False := by
  simp only [fieldKeyMatches, Bool.or_eq_true, decide_eq_true_eq] at h1 h2
  rcases h1 with h1 | h1 <;> rcases h2 with h2 | h2
  · rw [h1] at h2; exact absurd h2 (by decide)
  · subst h1; exact absurd h2 (by decide)
  · subst h2; exact absurd h1 (by decide)
  · rw [h1] at h2; exact absurd h2 (by decide)

theorem matches_args_false_of_matches_settings {k : String}
    (h1 : fieldKeyMatches "cmake.configureSettings" k = true) :
    fieldKeyMatches "cmake.configureArgs" k = false := by
  cases hx : fieldKeyMatches "cmake.configureArgs" k
  · rfl
  · exact (fieldKeyMatches_not_both k h1 hx).elim

/-- One member of the top-level object that the decoder rejects: the
member-level form of `docHasBadField`. -/
abbrev badFieldEntry (kv : String × Json) : Bool :=
  (fieldKeyMatches "cmake.configureSettings" kv.1 && badSettingsFieldValue kv.2) ||
    (fieldKeyMatches "cmake.configureArgs" kv.1 && badArgsFieldValue kv.2)

theorem decodeOneField_isError (s : VSCodeSettings) (kv : String × Json) :
    exceptIsError (decodeOneField s kv) = badFieldEntry kv := by
  obtain ⟨k, v⟩ := kv
  by_cases h1 : fieldKeyMatches "cmake.configureSettings" k = true
  · have h2 := matches_args_false_of_matches_settings h1
    cases v with
    | null => simp [decodeOneField, h1, h2, exceptIsError, badSettingsFieldValue,
        badArgsFieldValue]
    | obj fs =>
      simp only [decodeOneField, h1, if_pos]
      cases h : decodeObjIntoMap s.CMakeConfigureSettings fs with
      | error e =>
        have hall := decodeObjIntoMap_isError fs s.CMakeConfigureSettings
        rw [h] at hall
        simp only [exceptIsError] at hall
        simp [badFieldEntry, h1, badSettingsFieldValue, ← hall, exceptIsError]
      | ok m =>
        have hall := decodeObjIntoMap_isError fs s.CMakeConfigureSettings
        rw [h] at hall
        simp only [exceptIsError] at hall
        simp [badFieldEntry, h1, h2, badSettingsFieldValue, ← hall, exceptIsError]
    | bool b => simp [decodeOneField, h1, exceptIsError, badSettingsFieldValue]
    | num x => simp [decodeOneField, h1, exceptIsError, badSettingsFieldValue]
    | str t => simp [decodeOneField, h1, exceptIsError, badSettingsFieldValue]
    | arr es => simp [decodeOneField, h1, exceptIsError, badSettingsFieldValue]
  · by_cases h2 : fieldKeyMatches "cmake.configureArgs" k = true
    · cases v with
      | null => simp [decodeOneField, h1, h2, exceptIsError, badArgsFieldValue]
      | arr es =>
        simp only [decodeOneField, h1, h2, if_pos, if_neg, Bool.false_eq_true,
          not_false_eq_true]
        cases h : decodeStringArray es with
        | error e =>
          have hall := decodeStringArray_isError es
          rw [h] at hall
          simp only [exceptIsError] at hall
          simp [badFieldEntry, h1, h2, badArgsFieldValue, ← hall, exceptIsError]
        | ok l =>
          have hall := decodeStringArray_isError es
          rw [h] at hall
          simp only [exceptIsError] at hall
          simp [badFieldEntry, h1, h2, badArgsFieldValue, ← hall, exceptIsError]
      | bool b => simp [decodeOneField, h1, h2, exceptIsError, badArgsFieldValue]
      | num x => simp [decodeOneField, h1, h2, exceptIsError, badArgsFieldValue]
      | str t => simp [decodeOneField, h1, h2, exceptIsError, badArgsFieldValue]
      | obj fs => simp [decodeOneField, h1, h2, exceptIsError, badArgsFieldValue]
    · simp [decodeOneField, h1, h2, exceptIsError, badFieldEntry]

theorem decodeFields_isError (fields : List (String × Json)) :
    ∀ s, exceptIsError (decodeFields s fields) = fields.any badFieldEntry := by
  induction fields with
  | nil => intro s; rfl
  | cons kv rest ih =>
    intro s
    simp only [decodeFields]
    cases h : decodeOneField s kv with
    | error e =>
      have hb := decodeOneField_isError s kv
      rw [h] at hb
      simp only [exceptIsError] at hb
      simp [List.any_cons, ← hb, exceptIsError]
    | ok s1 =>
      have hb := decodeOneField_isError s kv
      rw [h] at hb
      simp only [exceptIsError] at hb
      rw [ih s1]
      simp [List.any_cons, ← hb]

theorem decodeVSCodeSettings_isError (doc : Json) :
    exceptIsError (decodeVSCodeSettings doc) =
      (topLevelNotObject doc || docHasBadField doc) := by
  cases doc with
  | obj fields =>
    simp only [decodeVSCodeSettings, topLevelNotObject, docHasBadField, Bool.false_or]
    exact decodeFields_isError fields ⟨[], []⟩
  | null => rfl
  | bool b => rfl
  | num x => rfl
  | str s => rfl
  | arr es => rfl

theorem parseVSCodeSettings_isError (input : String) :
    exceptIsError (ParseVSCodeSettings input) =
      match parseJsonText (jsoncToJSON input) with
      | none => true
      | some doc => topLevelNotObject doc || docHasBadField doc := by
  unfold ParseVSCodeSettings
  cases parseJsonText (jsoncToJSON input) with
  | none => rfl
  | some doc => exact decodeVSCodeSettings_isError doc

/-- C6 (amended): the parser returns an error exactly when the document is
not valid JSON after comment normalization, or its top-level value is
neither an object nor `null`, or a present field has the wrong shape in the
decoder's sense (`configureSettings` whose non-null value is not an object
of string-or-null values, or `configureArguments` whose non-null value is
not an array of string-or-null elements); absent fields yield zero values,
so parsing the empty object succeeds with both fields empty.  (The original
claim omits the top-level-shape error and counts `null`-valued fields as
wrongly shaped, which the decoder accepts; see the counterexample.) -/
theorem parseVSCodeSettings_error_iff (input : String) :
    (exceptIsError (ParseVSCodeSettings input) = true ↔
      parseJsonText (jsoncToJSON input) = none ∨
        ∃ doc, parseJsonText (jsoncToJSON input) = some doc ∧
          (topLevelNotObject doc = true ∨ docHasBadField doc = true)) ∧
    ParseVSCodeSettings "\x7b\x7d" = .ok ⟨[], []⟩ := by
  refine ⟨?_, rfl⟩
  rw [parseVSCodeSettings_isError input]
  cases parseJsonText (jsoncToJSON input) with
  | none => simp
  | some doc => simp [Bool.or_eq_true]

/-- C6 counterexample: the document `42` is valid JSON and no field of it
has the wrong shape, yet the parser returns an error (its top-level value
is not an object); and a document whose present `cmake.configureArgs` field
is `null` — not an array of strings — parses without error.  Both refute
the claim's "exactly when". -/
theorem parseVSCodeSettings_error_iff_counterexample :
    exceptIsError (ParseVSCodeSettings "42") = true ∧
    parseJsonText (jsoncToJSON "42") = some (.num "42") ∧
    topLevelNotObject (.num "42") = true ∧
    docHasBadField (.num "42") = false ∧
    exceptIsError (ParseVSCodeSettings "\x7b\"cmake.configureArgs\":null\x7d") = false :=
  ⟨rfl, rfl, rfl, rfl, rfl⟩

set_option maxRecDepth 100000 in
/-- C5: parsing the end-to-end scenario document and composing with the
process argument `-h` yields exactly the expected six-token vector, in
order. -/
theorem parse_example_end_to_end :
    (ParseVSCodeSettings exampleSettingsDoc).map (fun s => s.CollectCLIArgs ["-h"]) =
      .ok ["-DCMAKE_CXX_COMPILER=clang++",
        "-DCMAKE_CXX_FLAGS_INIT='-fdiagnostics-color=always -O3'",
        "-DCMAKE_CXX_STANDARD=17",
        "-DCMAKE_CXX_STANDARD_REQUIRED=ON",
        "-GNinja", "-h"] := rfl
